import Mathlib

/-!
Verification of the schema compiler and generation engine of the
`python_basics_capstone` data-generator.

The development shallowly embeds `src/datagenerator.py` and the filename
generator of `src/utils.py`:

* schemas are association lists `List (String × String)` (Python dicts
  preserve insertion order and have unique keys);
* each compiled generator closure becomes a constructor of the `Rule`
  inductive (`partial(self._generate_rand_int, lo, hi)` ↦ `Rule.randInt lo hi`,
  and so on);
* randomness, wall-clock time and fresh UUIDs are supplied by an explicit
  `Entropy` oracle, one per rule invocation; `random.randint lo hi` is a
  uniform draw from `[lo, hi]`, modelled as `lo + r % (hi - lo + 1)` for an
  arbitrary oracle value `r`, and `random.choice xs` is `xs[r % len xs]`,
  raising (modelled as `none`) on an empty list;
* Python exceptions are `Option.none`; a fallible compilation step returns
  `Option Rule`.

Modelling notes on the text-level helpers, which mirror the regular
expressions and literal parsing of the source:

* `RAND_INT_PATTERN = ^rand\(\s*(-?\d+)\s*,\s*(-?\d+)\s*\)$` — `\s` is the
  ASCII whitespace class, `\d` is modelled as the ASCII digits `0-9`, and the
  trailing `$` accepts the end of the string or a single final newline
  (Python `re` semantics without `MULTILINE`);
* `LIST_PATTERN = ^\[.*\]$` — `.` does not match a newline, and `$` again
  admits one trailing newline;
* `ast.literal_eval` on a list source is modelled by `literalEvalList`,
  restricted to the shapes the compiler can accept afterwards: flat lists of
  decimal-integer and simple quoted-string elements.  Everything else
  (nested lists, other literal forms, escape sequences) is conservatively
  mapped to the same rejection branch the source maps non-lists and
  malformed literals to;
* `int(str)` is modelled by `pyIntOfString`: surrounding whitespace is
  stripped, then an optional sign and a nonempty run of decimal digits.
-/

/-- Values a generated record can hold: integers, strings, or Python `None`. -/
inductive Value where
  | vInt (n : Int)
  | vStr (s : String)
  | vNull
deriving DecidableEq, Repr

/-- The compiled generation rule for one field.  Each constructor corresponds
to one of the bound callables the Python compiler stores in
`generation_plan`. -/
inductive Rule where
  | timestamp
  | randInt (lo hi : Int)
  | choiceInt (opts : List Int)
  | choiceStr (opts : List String)
  | staticInt (v : Int)
  | staticStr (v : String)
  | nullValue
  | emptyString
  | uuid
deriving DecidableEq, Repr

/-- ASCII whitespace, the characters matched by `\s` (and stripped by
Python `int()`). -/
def isPySpace (c : Char) : Bool :=
  c = ' ' || c = '\t' || c = '\n' || c = '\r' || c = '\x0b' || c = '\x0c'

/-- Drop leading whitespace. -/
def skipWs : List Char → List Char
  | [] => []
  | c :: cs => if isPySpace c then skipWs cs else c :: cs

/-- Take a maximal run of ASCII digits. -/
def takeDigits : List Char → List Char × List Char
  | [] => ([], [])
  | c :: cs =>
    if c.isDigit then
      let (ds, rest) := takeDigits cs
      (c :: ds, rest)
    else ([], c :: cs)

/-- Decimal value of a digit run. -/
def digitsToNat (ds : List Char) : Nat :=
  ds.foldl (fun a c => a * 10 + (c.toNat - 48)) 0

/-- Parse `-?\d+`: an optional minus sign followed by at least one digit. -/
def parseSignedInt (cs : List Char) : Option (Int × List Char) :=
  match cs with
  | '-' :: rest =>
    let (ds, r) := takeDigits rest
    if ds.isEmpty then none else some (-(digitsToNat ds : Int), r)
  | _ =>
    let (ds, r) := takeDigits cs
    if ds.isEmpty then none else some ((digitsToNat ds : Int), r)

/-- The `$` anchor of a Python regex (no `MULTILINE`): matches at the end of
the string or just before one final newline. -/
def atDollar (cs : List Char) : Bool :=
  match cs with
  | [] => true
  | ['\n'] => true
  | _ => false

/-- Full match of `RAND_INT_PATTERN = ^rand\(\s*(-?\d+)\s*,\s*(-?\d+)\s*\)$`,
returning the two captured integers. -/
def parseRandInt (s : String) : Option (Int × Int) :=
  match s.data with
  | 'r' :: 'a' :: 'n' :: 'd' :: '(' :: rest =>
    match parseSignedInt (skipWs rest) with
    | none => none
    | some (a, rest1) =>
      match skipWs rest1 with
      | ',' :: rest2 =>
        match parseSignedInt (skipWs rest2) with
        | none => none
        | some (b, rest3) =>
          match skipWs rest3 with
          | ')' :: rest4 => if atDollar rest4 then some (a, b) else none
          | _ => none
      | _ => none
  | _ => none

/-- The `$`-anchor adjustment: the character list of the source with one
final newline, when present, discarded. -/
def listStripped (s : String) : List Char :=
  if s.data.getLast? = some '\n' then s.data.dropLast else s.data

/-- Full match of `LIST_PATTERN = ^\[.*\]$`: after discarding one optional
trailing newline the text must start with `[`, end with `]`, and contain no
newline in between (`.` does not cross newlines). -/
def listPatternMatch (s : String) : Bool :=
  decide (2 ≤ (listStripped s).length) && (listStripped s).head? = some '[' &&
    (listStripped s).getLast? = some ']' &&
    ((listStripped s).drop 1).dropLast.all (fun c => c ≠ '\n')

/-- An element of a parsed Python list literal, restricted to the two
element types the compiler's `isinstance` checks can accept. -/
inductive PyVal where
  | pInt (n : Int)
  | pStr (s : String)
deriving DecidableEq, Repr

/-- Parse one list element: a decimal integer literal or a simple quoted
string literal (no backslash escapes; such sources are conservatively
rejected). -/
def parseListElem (cs : List Char) : Option (PyVal × List Char) :=
  match cs with
  | '\'' :: rest =>
    let body := rest.takeWhile (fun c => c ≠ '\'' && c ≠ '\\')
    match rest.drop body.length with
    | '\'' :: r => some (.pStr ⟨body⟩, r)
    | _ => none
  | '"' :: rest =>
    let body := rest.takeWhile (fun c => c ≠ '"' && c ≠ '\\')
    match rest.drop body.length with
    | '"' :: r => some (.pStr ⟨body⟩, r)
    | _ => none
  | _ =>
    match parseSignedInt cs with
    | some (n, r) => some (.pInt n, r)
    | none => none

/-- After the first element: `(\s*,\s*elem)*` with an optional trailing
comma, then the closing bracket.  The `fuel` argument bounds recursion by
the remaining character count. -/
def parseListRest (fuel : Nat) (cs : List Char) : Option (List PyVal × List Char) :=
  match fuel with
  | 0 => none
  | fuel + 1 =>
    match skipWs cs with
    | ']' :: r => some ([], r)
    | ',' :: r =>
      match skipWs r with
      | ']' :: r2 => some ([], r2)
      | r2 =>
        match parseListElem r2 with
        | none => none
        | some (v, r3) =>
          match parseListRest fuel r3 with
          | none => none
          | some (vs, r4) => some (v :: vs, r4)
    | _ => none

/-- `ast.literal_eval` on a source string, restricted to flat lists of
integer and simple string literals; `none` covers both a raised
`ValueError`/`SyntaxError` and a non-list result, which the compiler treats
alike. -/
def literalEvalList (s : String) : Option (List PyVal) :=
  match skipWs s.data with
  | '[' :: rest =>
    match skipWs rest with
    | ']' :: r => if (skipWs r).isEmpty then some [] else none
    | r =>
      match parseListElem r with
      | none => none
      | some (v, r2) =>
        match parseListRest (r2.length + 1) r2 with
        | none => none
        | some (vs, r3) => if (skipWs r3).isEmpty then some (v :: vs) else none
  | _ => none

/-- `isinstance(x, int)` for a parsed literal element. -/
def PyVal.isInt : PyVal → Bool
  | .pInt _ => true
  | .pStr _ => false

/-- `isinstance(x, str)` for a parsed literal element. -/
def PyVal.isStr : PyVal → Bool
  | .pInt _ => false
  | .pStr _ => true

/-- Python `int(source)`: strip surrounding whitespace, optional sign,
nonempty digit run (`none` models the raised `ValueError`). -/
def pyIntOfString (s : String) : Option Int :=
  let cs := (skipWs s.data).reverse
  let cs := (skipWs cs).reverse
  match cs with
  | '+' :: rest =>
    let (ds, r) := takeDigits rest
    if ds.isEmpty || !r.isEmpty then none else some (digitsToNat ds : Int)
  | '-' :: rest =>
    let (ds, r) := takeDigits rest
    if ds.isEmpty || !r.isEmpty then none else some (-(digitsToNat ds : Int))
  | _ =>
    let (ds, r) := takeDigits cs
    if ds.isEmpty || !r.isEmpty then none else some (digitsToNat ds : Int)

example : parseRandInt "rand(1, 100)" = some (1, 100) := by rfl
example : parseRandInt "rand( -5 ,7)\n" = some (-5, 7) := by rfl
example : parseRandInt "rand" = none := by rfl
example : parseRandInt "rand(10-20)" = none := by rfl
example : listPatternMatch "[1, 2]" = true := by rfl
example : listPatternMatch "[]" = true := by rfl
example : listPatternMatch "[1]\n" = true := by rfl
example : listPatternMatch "[\n]" = false := by rfl
example : literalEvalList "[1, 2, 3]" = some [.pInt 1, .pInt 2, .pInt 3] := by rfl
example : literalEvalList "[]" = some [] := by rfl
example : literalEvalList "['a', 'b']" = some [.pStr "a", .pStr "b"] := by rfl
example : pyIntOfString " 42 " = some 42 := by rfl
example : pyIntOfString "[1]\n" = none := by rfl

/-! ## The schema compiler (`DataGenerator._parse_and_compile_schema`) -/

/-- `self.possible_types = ["timestamp", "str", "int"]`. -/
def possibleTypes : List String := ["timestamp", "str", "int"]

/-- `":" in value` followed by `value.split(":", 1)`: split at the first
colon; `none` when no colon occurs. -/
def splitOnColon (value : String) : Option (String × String) :=
  match value.data.findIdx? (fun c => c = ':') with
  | none => none
  | some i => some (⟨value.data.take i⟩, ⟨value.data.drop (i + 1)⟩)

/-- `DataGenerator._compile_list_source(key, val_source, int)`: parse the
source as a literal; it must be a list whose elements all satisfy
`isinstance(_, int)`. -/
def compileListSourceInt (valSource : String) : Option Rule :=
  match literalEvalList valSource with
  | none => none
  | some xs =>
    if xs.all PyVal.isInt then
      some (.choiceInt (xs.filterMap fun v => match v with | .pInt n => some n | .pStr _ => none))
    else none

/-- `DataGenerator._compile_list_source(key, val_source, str)`: same with
`isinstance(_, str)`. -/
def compileListSourceStr (valSource : String) : Option Rule :=
  match literalEvalList valSource with
  | none => none
  | some xs =>
    if xs.all PyVal.isStr then
      some (.choiceStr (xs.filterMap fun v => match v with | .pInt _ => none | .pStr s => some s))
    else none

/-- `DataGenerator._compile_standalone_source(key, val_source, int)`:
`int(val_source)` packaged as a static rule, `none` on `ValueError`. -/
def compileStandaloneInt (valSource : String) : Option Rule :=
  match pyIntOfString valSource with
  | some n => some (.staticInt n)
  | none => none

/-- The per-field body of the compilation loop: from one schema value
`"type:source"` to its generation rule, `none` for every rejection (the
caller then returns `False` at once). -/
def compileField (value : String) : Option Rule :=
  match splitOnColon value with
  | none => none
  | some (valType, valSource) =>
    if valType ∉ possibleTypes then none
    else if valType = "timestamp" then some .timestamp
    else if valType = "int" then
      if valSource = "" then some .nullValue
      else if valSource = "rand" then some (.randInt 0 10000)
      else
        match parseRandInt valSource with
        | some (a, b) => some (.randInt (min a b) (max a b))
        | none =>
          if listPatternMatch valSource then compileListSourceInt valSource
          else compileStandaloneInt valSource
    else
      if valSource = "" then some .emptyString
      else if valSource = "rand" then some .uuid
      else if (parseRandInt valSource).isSome then none
      else if listPatternMatch valSource then compileListSourceStr valSource
      else some (.staticStr valSource)

/-- The compiler's mutable state: the input schema object and the
`generation_plan` dict being built.  The schema is carried through the loop
explicitly so that the absence of writes to it is a provable fact rather
than a modelling assumption. -/
structure CompileState where
  schema : List (String × String)
  plan : List (String × Rule)
deriving DecidableEq, Repr

/-- The `for key, value in data_schema.items()` loop: each successful field
appends its rule to the plan; the first failure stops the loop and returns
`False`, leaving the entries compiled so far in place. -/
def compileLoop : List (String × String) → CompileState → CompileState × Bool
  | [], st => (st, true)
  | (k, v) :: rest, st =>
    match compileField v with
    | none => (st, false)
    | some r => compileLoop rest { st with plan := st.plan ++ [(k, r)] }

/-- `DataGenerator.__init__` / `_parse_and_compile_schema` on a dict input
(the non-dict guard cannot fire in this typed embedding): final compiler
state plus the validity flag. -/
def runCompile (s : List (String × String)) : CompileState × Bool :=
  compileLoop s { schema := s, plan := [] }

/-- The observable result of compilation: the generation plan and
`is_valid`. -/
def compileSchema (s : List (String × String)) : List (String × Rule) × Bool :=
  ((runCompile s).1.plan, (runCompile s).2)

example : compileSchema [("id", "str:rand"), ("age", "int:rand(18, 65)")] =
    ([("id", .uuid), ("age", .randInt 18 65)], true) := by rfl
example : compileSchema [("name", "str:rand(1,10)")] = ([], false) := by rfl
example : compileSchema [("age", "int:rand(10-20)")] = ([], false) := by rfl
example : compileSchema [("id", "string:rand")] = ([], false) := by rfl
example : compileSchema [("k", "int:[]")] = ([("k", .choiceInt [])], true) := by rfl
example : compileSchema [("a", "int:rand(10,-10)")] = ([("a", .randInt (-10) 10)], true) := by rfl
example : compileSchema [("c", "str:Poland"), ("t", "timestamp:")] =
    ([("c", .staticStr "Poland"), ("t", .timestamp)], true) := by rfl

/-! ## Rule evaluation and the execution engine -/

/-- The ambient nondeterminism available to one rule invocation: the
wall-clock reading, one pseudo-random draw, and a fresh UUID string. -/
structure Entropy where
  time : Int
  rand : Nat
  uuid : String

/-- Evaluate one compiled rule (`func()` in `_generate_one_file`); `none`
models a raised exception (`random.choice` on an empty list, or
`random.randint` with crossed bounds — the latter is unreachable from
compiled plans). -/
def evalRule (ρ : Rule) (e : Entropy) : Option Value :=
  match ρ with
  | .timestamp => some (.vInt e.time)
  | .randInt lo hi =>
    if lo ≤ hi then some (.vInt (lo + (e.rand : Int) % (hi - lo + 1))) else none
  | .choiceInt opts => (opts.get? (e.rand % opts.length)).map .vInt
  | .choiceStr opts => (opts.get? (e.rand % opts.length)).map .vStr
  | .staticInt v => some (.vInt v)
  | .staticStr v => some (.vStr v)
  | .nullValue => some .vNull
  | .emptyString => some (.vStr "")
  | .uuid => some (.vStr e.uuid)

/-- `DataGenerator._generate_one_file`: evaluate every rule of the plan in
order into one record; any raised exception aborts the whole record. -/
def generateOneFile (plan : List (String × Rule)) (env : String → Entropy) :
    Option (List (String × Value)) :=
  match plan with
  | [] => some []
  | (k, r) :: rest =>
    match evalRule r (env k) with
    | none => none
    | some v =>
      match generateOneFile rest env with
      | none => none
      | some record => some ((k, v) :: record)

/-- `DataGenerator.generate_data(num_data, num_workers)`: the empty list at
once when the plan is invalid; otherwise `num_data` records in index order.
The sequential path and the `ProcessPoolExecutor.map` path both return
results in dispatch order, so they share one model; `numWorkers` only
selects between them.  The entropy oracle is indexed by record number and
field name. -/
def generateData (plan : List (String × Rule)) (isValid : Bool)
    (numData numWorkers : Nat) (env : Nat → String → Entropy) :
    Option (List (List (String × Value))) :=
  if !isValid then some []
  else if numWorkers ≤ 1 then
    (List.range numData).mapM fun i => generateOneFile plan (env i)
  else
    (List.range numData).mapM fun i => generateOneFile plan (env i)

example :
    generateData [("a", .randInt 1 3)] true 2 1 (fun i _ => ⟨0, i, "u"⟩) =
      some [[("a", .vInt 1)], [("a", .vInt 2)]] := by rfl
example :
    generateData [("k", .choiceInt [])] true 1 1 (fun _ _ => ⟨0, 0, "u"⟩) = none := by rfl
example : generateData [("a", .randInt 1 3)] false 5 4 (fun i _ => ⟨0, i, "u"⟩) =
    some [] := by rfl

/-! ## Filename generation (`src/utils.py::_generate_filenames`) -/

/-- `_generate_filenames(base_name, prefix, count)` with the two sources of
randomness (`random.randint(10000, 99999)` and `uuid4().hex[:8]`) supplied
as oracles indexed by the loop counter.  A prefix outside
`{count, random, uuid}` yields nothing for an iteration, hence the
`filterMap`. -/
def generateFilenames (baseName prefixStrat : String) (count : Nat)
    (randTok : Nat → Nat) (uuidTok : Nat → String) : List String :=
  if count ≤ 1 then [baseName ++ ".jsonl"]
  else
    ((List.range count).map (· + 1)).filterMap fun i =>
      if prefixStrat = "count" then some (baseName ++ "_" ++ toString i ++ ".jsonl")
      else if prefixStrat = "random" then some (baseName ++ "_" ++ toString (randTok i) ++ ".jsonl")
      else if prefixStrat = "uuid" then some (baseName ++ "_" ++ uuidTok i ++ ".jsonl")
      else none

example : generateFilenames "x" "count" 3 (fun _ => 0) (fun _ => "") =
    ["x_1.jsonl", "x_2.jsonl", "x_3.jsonl"] := by rfl
example : generateFilenames "x" "uuid" 1 (fun _ => 0) (fun _ => "deadbeef") =
    ["x.jsonl"] := by rfl
example : generateFilenames "x" "uuid" 2 (fun _ => 0) (fun i => toString i) =
    ["x_1.jsonl", "x_2.jsonl"] := by rfl

/-! ## Helper lemmas -/

/-- A rule whose evaluation cannot raise: every choice rule with a nonempty
option list, every well-ordered `randInt`, and all the deterministic
rules. -/
def ruleEvaluable : Rule → Bool
  | .randInt lo hi => decide (lo ≤ hi)
  | .choiceInt opts => !opts.isEmpty
  | .choiceStr opts => !opts.isEmpty
  | _ => true

/-- A choice rule with a nonempty option list (trivially true for the other
constructors). -/
def choiceNonempty : Rule → Bool
  | .choiceInt opts => !opts.isEmpty
  | .choiceStr opts => !opts.isEmpty
  | _ => true

theorem evalRule_isSome_of_evaluable (ρ : Rule) (e : Entropy)
    (h : ruleEvaluable ρ = true) : ∃ v, evalRule ρ e = some v := by
  cases ρ with
  | randInt lo hi =>
    simp only [ruleEvaluable, decide_eq_true_eq] at h
    refine ⟨.vInt (lo + (e.rand : Int) % (hi - lo + 1)), ?_⟩
    simp [evalRule, h]
  | choiceInt opts =>
    have h' : opts ≠ [] := fun hn => by simp [ruleEvaluable, hn] at h
    have hlt : e.rand % opts.length < opts.length :=
      Nat.mod_lt _ (List.length_pos.2 h')
    refine ⟨.vInt (opts.get ⟨e.rand % opts.length, hlt⟩), ?_⟩
    show (opts.get? (e.rand % opts.length)).map Value.vInt = _
    rw [List.get?_eq_get hlt]
    rfl
  | choiceStr opts =>
    have h' : opts ≠ [] := fun hn => by simp [ruleEvaluable, hn] at h
    have hlt : e.rand % opts.length < opts.length :=
      Nat.mod_lt _ (List.length_pos.2 h')
    refine ⟨.vStr (opts.get ⟨e.rand % opts.length, hlt⟩), ?_⟩
    show (opts.get? (e.rand % opts.length)).map Value.vStr = _
    rw [List.get?_eq_get hlt]
    rfl
  | timestamp => exact ⟨_, rfl⟩
  | staticInt v => exact ⟨_, rfl⟩
  | staticStr v => exact ⟨_, rfl⟩
  | nullValue => exact ⟨_, rfl⟩
  | emptyString => exact ⟨_, rfl⟩
  | uuid => exact ⟨_, rfl⟩

/-- Every `randInt` rule the compiler emits has ordered bounds. -/
theorem compileField_randInt_ordered (value : String) (lo hi : Int)
    (h : compileField value = some (.randInt lo hi)) : lo ≤ hi := by
  unfold compileField compileListSourceInt compileListSourceStr compileStandaloneInt at h
  repeat' split at h
  all_goals first
    | exact Option.noConfusion h
    | (injection h with h; exact Rule.noConfusion h)
    | (injection h with h; injection h with h1 h2; omega)

/-- An evaluable plan evaluates to a record over exactly the plan's keys. -/
theorem generateOneFile_keys (plan : List (String × Rule)) (env : String → Entropy)
    (h : ∀ kr ∈ plan, ruleEvaluable kr.2 = true) :
    ∃ record, generateOneFile plan env = some record ∧
      record.map Prod.fst = plan.map Prod.fst := by
  induction plan with
  | nil => exact ⟨[], rfl, rfl⟩
  | cons kr rest ih =>
    obtain ⟨k, r⟩ := kr
    obtain ⟨v, hv⟩ := evalRule_isSome_of_evaluable r (env k) (h (k, r) (by simp))
    obtain ⟨record, hrec, hkeys⟩ := ih fun x hx => h x (by simp [hx])
    refine ⟨(k, v) :: record, ?_, ?_⟩
    · simp [generateOneFile, hv, hrec]
    · simp [hkeys]

/-- The compilation loop never writes to the schema component of its
state. -/
theorem compileLoop_schema (l : List (String × String)) (st : CompileState) :
    ((compileLoop l st).1).schema = st.schema := by
  induction l generalizing st with
  | nil => rfl
  | cons kv rest ih =>
    obtain ⟨k, v⟩ := kv
    simp only [compileLoop]
    rcases hc : compileField v with _ | r
    · rfl
    · exact ih _

/-- On a fully valid suffix, the loop appends exactly one plan entry per
schema field, in order. -/
theorem compileLoop_keys (l : List (String × String)) (st : CompileState)
    (h : (compileLoop l st).2 = true) :
    ((compileLoop l st).1).plan.map Prod.fst = st.plan.map Prod.fst ++ l.map Prod.fst := by
  induction l generalizing st with
  | nil => simp [compileLoop]
  | cons kv rest ih =>
    obtain ⟨k, v⟩ := kv
    simp only [compileLoop] at h ⊢
    rcases hc : compileField v with _ | r
    · rw [hc] at h
      exact absurd h (by simp)
    · rw [hc] at h
      rw [ih _ h]
      simp

/-- Every plan entry the loop adds comes from a successful `compileField`
call. -/
theorem compileLoop_plan_mem (l : List (String × String)) (st : CompileState)
    (kr : String × Rule) (hkr : kr ∈ ((compileLoop l st).1).plan) :
    kr ∈ st.plan ∨ ∃ v, compileField v = some kr.2 := by
  induction l generalizing st with
  | nil => exact Or.inl hkr
  | cons kv rest ih =>
    obtain ⟨k, v⟩ := kv
    simp only [compileLoop] at hkr
    rcases hc : compileField v with _ | r
    · rw [hc] at hkr
      exact Or.inl hkr
    · rw [hc] at hkr
      rcases ih _ hkr with h | h
      · rcases List.mem_append.1 h with h | h
        · exact Or.inl h
        · refine Or.inr ⟨v, ?_⟩
          have : kr = (k, r) := by simpa using h
          rw [this]
          exact hc
      · exact Or.inr h

/-- Fail-fast: with a failing field in the middle, the loop stops there,
keeps exactly the plan built from the prefix, and reports `False` — the
suffix is never examined. -/
theorem compileLoop_failfast (pre post : List (String × String)) (k bad : String)
    (st : CompileState)
    (hpre : ∀ kv ∈ pre, (compileField kv.2).isSome = true)
    (hbad : compileField bad = none) :
    compileLoop (pre ++ (k, bad) :: post) st = ((compileLoop pre st).1, false) := by
  induction pre generalizing st with
  | nil =>
    simp only [List.nil_append, compileLoop]
    rw [hbad]
  | cons kv rest ih =>
    obtain ⟨k0, v0⟩ := kv
    have h0 : (compileField v0).isSome = true := hpre (k0, v0) (by simp)
    rcases hc : compileField v0 with _ | r
    · rw [hc] at h0
      exact absurd h0 (by simp)
    · simp only [List.cons_append, compileLoop]
      rw [hc]
      exact ih _ fun x hx => hpre x (by simp [hx])

/-- The plan and validity produced by the loop do not depend on the schema
component carried in the state. -/
theorem compileLoop_plan_indep (l : List (String × String)) (p : List (String × Rule))
    (s1 s2 : List (String × String)) :
    ((compileLoop l ⟨s1, p⟩).1).plan = ((compileLoop l ⟨s2, p⟩).1).plan ∧
    (compileLoop l ⟨s1, p⟩).2 = (compileLoop l ⟨s2, p⟩).2 := by
  induction l generalizing p with
  | nil => exact ⟨rfl, rfl⟩
  | cons kv rest ih =>
    obtain ⟨k, v⟩ := kv
    simp only [compileLoop]
    rcases hc : compileField v with _ | r
    · exact ⟨rfl, rfl⟩
    · exact ih _

/-! ## Claim theorems -/

/-- C9: compilation does not mutate the input schema: for every input
schema, valid or not, the schema component of the final compiler state is
exactly the input mapping. -/
theorem compile_preserves_schema (s : List (String × String)) :
    ((runCompile s).1).schema = s :=
  compileLoop_schema s ⟨s, []⟩

/-- C2: a schema with a failing field compiles fail-fast — the resulting
plan is exactly the one built from the prefix before the failing field (the
suffix is never compiled, whatever it contains), the plan is marked
invalid, and generation from the invalid plan returns the empty sequence
for every record count and worker count. -/
theorem compile_failfast_and_invalid_generation
    (pre post : List (String × String)) (k bad : String)
    (n w : Nat) (env : Nat → String → Entropy)
    (hpre : ∀ kv ∈ pre, (compileField kv.2).isSome = true)
    (hbad : compileField bad = none) :
    compileSchema (pre ++ (k, bad) :: post) = ((compileSchema pre).1, false) ∧
    generateData (compileSchema (pre ++ (k, bad) :: post)).1
      (compileSchema (pre ++ (k, bad) :: post)).2 n w env = some [] := by
  have hff := compileLoop_failfast pre post k bad ⟨pre ++ (k, bad) :: post, []⟩ hpre hbad
  have hindep := compileLoop_plan_indep pre [] (pre ++ (k, bad) :: post) pre
  have h2 : (compileSchema (pre ++ (k, bad) :: post)).2 = false := by
    simp [compileSchema, runCompile, hff]
  have h1 : (compileSchema (pre ++ (k, bad) :: post)).1 = (compileSchema pre).1 := by
    simp only [compileSchema, runCompile, hff]
    exact hindep.1
  refine ⟨?_, ?_⟩
  · rw [Prod.ext_iff]
    exact ⟨h1, h2⟩
  · rw [h2]
    rfl

/-- Witness for `compile_failfast_and_invalid_generation` at a concrete
schema: a valid field, then a `TypeMismatch` failure, then a field that is
never reached. -/
theorem compile_failfast_and_invalid_generation_w :
    compileSchema ([("a", "int:1")] ++ ("x", "str:rand(1,10)") :: [("z", "str:")]) =
      ((compileSchema [("a", "int:1")]).1, false) ∧
    generateData
      (compileSchema ([("a", "int:1")] ++ ("x", "str:rand(1,10)") :: [("z", "str:")])).1
      (compileSchema ([("a", "int:1")] ++ ("x", "str:rand(1,10)") :: [("z", "str:")])).2
      5 4 (fun _ _ => ⟨0, 0, "u"⟩) = some [] :=
  compile_failfast_and_invalid_generation [("a", "int:1")] [("z", "str:")] "x" "str:rand(1,10)"
    5 4 (fun _ _ => ⟨0, 0, "u"⟩) (by decide) (by decide)

/-- C1, counterexample: the schema `{"a": "int:[]"}` is accepted by the
compiler (the plan is valid), yet evaluating the plan produces no record at
all — the evaluation raises instead of yielding a record with key `"a"`. -/
theorem valid_schema_evaluation_yields_no_record :
    (compileSchema [("a", "int:[]")]).2 = true ∧
    generateOneFile (compileSchema [("a", "int:[]")]).1 (fun _ => ⟨0, 0, "u"⟩) = none :=
  ⟨rfl, rfl⟩

/-- C1 (amended): for every valid schema the compiled plan has exactly one
rule per schema key, in schema order — unconditionally; and if additionally
no compiled choice rule has an empty option list, evaluating the plan once
produces a record whose key sequence is exactly the schema's. -/
theorem valid_plan_keys_and_record_keys (s : List (String × String))
    (env : String → Entropy)
    (hv : (compileSchema s).2 = true) :
    (compileSchema s).1.map Prod.fst = s.map Prod.fst ∧
    ((∀ kr ∈ (compileSchema s).1, choiceNonempty kr.2 = true) →
      ∃ record, generateOneFile (compileSchema s).1 env = some record ∧
        record.map Prod.fst = s.map Prod.fst) := by
  have hkeys : (compileSchema s).1.map Prod.fst = s.map Prod.fst := by
    have hv' : (compileLoop s ⟨s, []⟩).2 = true := hv
    simpa using compileLoop_keys s ⟨s, []⟩ hv'
  refine ⟨hkeys, ?_⟩
  intro hne
  have heval : ∀ kr ∈ (compileSchema s).1, ruleEvaluable kr.2 = true := by
    intro kr hkr
    have hmem : kr ∈ (⟨s, []⟩ : CompileState).plan ∨ ∃ v, compileField v = some kr.2 :=
      compileLoop_plan_mem s ⟨s, []⟩ kr hkr
    rcases hmem with h | ⟨v, hv2⟩
    · exact absurd h (by simp)
    · cases hr : kr.2 with
      | randInt lo hi =>
        rw [hr] at hv2
        simpa [ruleEvaluable] using compileField_randInt_ordered v lo hi hv2
      | choiceInt opts =>
        have := hne kr hkr
        rw [hr] at this
        exact this
      | choiceStr opts =>
        have := hne kr hkr
        rw [hr] at this
        exact this
      | timestamp => rfl
      | staticInt x => rfl
      | staticStr x => rfl
      | nullValue => rfl
      | emptyString => rfl
      | uuid => rfl
  obtain ⟨record, hrec, hrk⟩ := generateOneFile_keys (compileSchema s).1 env heval
  exact ⟨record, hrec, hrk.trans hkeys⟩

/-- Witness for `valid_plan_keys_and_record_keys` at a concrete two-field
schema. -/
theorem valid_plan_keys_and_record_keys_w :
    (compileSchema [("id", "str:rand"), ("age", "int:rand(18, 65)")]).1.map Prod.fst =
      [("id", "str:rand"), ("age", "int:rand(18, 65)")].map Prod.fst ∧
    ((∀ kr ∈ (compileSchema [("id", "str:rand"), ("age", "int:rand(18, 65)")]).1,
        choiceNonempty kr.2 = true) →
      ∃ record,
        generateOneFile (compileSchema [("id", "str:rand"), ("age", "int:rand(18, 65)")]).1
          (fun _ => ⟨0, 3, "u"⟩) = some record ∧
        record.map Prod.fst = [("id", "str:rand"), ("age", "int:rand(18, 65)")].map Prod.fst) :=
  valid_plan_keys_and_record_keys [("id", "str:rand"), ("age", "int:rand(18, 65)")]
    (fun _ => ⟨0, 3, "u"⟩) (by decide)

/-- C3: an `int` field whose source matches `rand(<int>, <int>)` compiles
to `randInt` with min/max-normalized bounds; evaluating `randInt lo hi`
with ordered bounds always yields an integer in `[lo, hi]`; and the
compiled rules for `rand(10,-10)` and `rand(-10,10)` coincide. -/
theorem int_rand_pattern_and_bounds (value valSource : String) (a b lo hi : Int)
    (e : Entropy)
    (hsplit : splitOnColon value = some ("int", valSource))
    (hpat : parseRandInt valSource = some (a, b))
    (hlohi : lo ≤ hi) :
    compileField value = some (.randInt (min a b) (max a b)) ∧
    (∃ v, evalRule (.randInt lo hi) e = some (.vInt v) ∧ lo ≤ v ∧ v ≤ hi) ∧
    compileField "int:rand(10,-10)" = compileField "int:rand(-10,10)" := by
  refine ⟨?_, ?_, rfl⟩
  · have h0 : valSource ≠ "" := by
      rintro rfl
      exact Option.noConfusion hpat
    have h1 : valSource ≠ "rand" := by
      rintro rfl
      exact Option.noConfusion hpat
    unfold compileField
    rw [hsplit]
    simp [possibleTypes, h0, h1, hpat]
  · have hne : hi - lo + 1 ≠ 0 := by omega
    have hnn : 0 ≤ (e.rand : Int) % (hi - lo + 1) := Int.emod_nonneg _ hne
    have hub : (e.rand : Int) % (hi - lo + 1) < hi - lo + 1 :=
      Int.emod_lt_of_pos _ (by omega)
    refine ⟨lo + (e.rand : Int) % (hi - lo + 1), ?_, by omega, by omega⟩
    simp [evalRule, hlohi]

/-- Witness for `int_rand_pattern_and_bounds` at the descending-bounds
source `rand(10,-10)`. -/
theorem int_rand_pattern_and_bounds_w :
    compileField "int:rand(10,-10)" = some (.randInt (min (10 : Int) (-10)) (max (10 : Int) (-10))) ∧
    (∃ v, evalRule (.randInt (-10) 10) ⟨0, 7, "u"⟩ = some (.vInt v) ∧ (-10 : Int) ≤ v ∧ v ≤ 10) ∧
    compileField "int:rand(10,-10)" = compileField "int:rand(-10,10)" :=
  int_rand_pattern_and_bounds "int:rand(10,-10)" "rand(10,-10)" 10 (-10) (-10) 10
    ⟨0, 7, "u"⟩ (by decide) (by decide) (by decide)

/-- C4: whenever a choice rule evaluates to a value, that value is a member
of the rule's stored option list (integer options for `choiceInt`, string
options for `choiceStr`). -/
theorem choice_eval_member (iopts : List Int) (sopts : List String) (e1 e2 : Entropy)
    (v w : Value)
    (h1 : evalRule (.choiceInt iopts) e1 = some v)
    (h2 : evalRule (.choiceStr sopts) e2 = some w) :
    (∃ n, v = .vInt n ∧ n ∈ iopts) ∧ (∃ t, w = .vStr t ∧ t ∈ sopts) := by
  constructor
  · have h1' : (iopts.get? (e1.rand % iopts.length)).map Value.vInt = some v := h1
    rcases Option.map_eq_some'.1 h1' with ⟨n, hn, hv⟩
    exact ⟨n, hv.symm, List.get?_mem hn⟩
  · have h2' : (sopts.get? (e2.rand % sopts.length)).map Value.vStr = some w := h2
    rcases Option.map_eq_some'.1 h2' with ⟨t, ht, hw⟩
    exact ⟨t, hw.symm, List.get?_mem ht⟩

/-- Witness for `choice_eval_member` on concrete one-draw evaluations. -/
theorem choice_eval_member_w :
    (∃ n, Value.vInt 5 = .vInt n ∧ n ∈ [(5 : Int), 9]) ∧
    (∃ t, Value.vStr "a" = .vStr t ∧ t ∈ ["a", "b"]) :=
  choice_eval_member [5, 9] ["a", "b"] ⟨0, 0, "u"⟩ ⟨0, 0, "u"⟩
    (.vInt 5) (.vStr "a") (by decide) (by decide)

/-- C5: a `str` field whose source matches the `rand(<int>, <int>)` pattern
is rejected; in particular the schema `{"age": "str:rand(1,10)"}` fails to
compile. -/
theorem str_rand_pattern_rejected (value valSource : String)
    (hsplit : splitOnColon value = some ("str", valSource))
    (hpat : (parseRandInt valSource).isSome = true) :
    compileField value = none ∧
    compileSchema [("age", "str:rand(1,10)")] = ([], false) := by
  refine ⟨?_, rfl⟩
  have h0 : valSource ≠ "" := by
    rintro rfl
    exact absurd hpat (by decide)
  have h1 : valSource ≠ "rand" := by
    rintro rfl
    exact absurd hpat (by decide)
  unfold compileField
  rw [hsplit]
  simp [possibleTypes, h0, h1, hpat]

/-- Witness for `str_rand_pattern_rejected` at the spec's own example. -/
theorem str_rand_pattern_rejected_w :
    compileField "str:rand(1,10)" = none ∧
    compileSchema [("age", "str:rand(1,10)")] = ([], false) :=
  str_rand_pattern_rejected "str:rand(1,10)" "rand(1,10)" (by decide) (by decide)

/-- C6: a `str` field with empty source compiles to the empty-string rule,
which always evaluates to `""`; an `int` field with empty source compiles
to the null rule, which always evaluates to the null value. -/
theorem empty_source_rules (value1 value2 : String) (e1 e2 : Entropy)
    (h1 : splitOnColon value1 = some ("str", ""))
    (h2 : splitOnColon value2 = some ("int", "")) :
    compileField value1 = some .emptyString ∧ evalRule .emptyString e1 = some (.vStr "") ∧
    compileField value2 = some .nullValue ∧ evalRule .nullValue e2 = some .vNull := by
  refine ⟨?_, rfl, ?_, rfl⟩
  · unfold compileField
    rw [h1]
    rfl
  · unfold compileField
    rw [h2]
    rfl

/-- Witness for `empty_source_rules` at the only two field values with the
given splits. -/
theorem empty_source_rules_w :
    compileField "str:" = some .emptyString ∧
    evalRule .emptyString ⟨0, 0, "u"⟩ = some (.vStr "") ∧
    compileField "int:" = some .nullValue ∧
    evalRule .nullValue ⟨0, 0, "u"⟩ = some .vNull :=
  empty_source_rules "str:" "int:" ⟨0, 0, "u"⟩ ⟨0, 0, "u"⟩ (by decide) (by decide)

/-- C8: with the `count` prefix, three files over base `"x"` are named
`x_1.jsonl`, `x_2.jsonl`, `x_3.jsonl`; with a single file the name is
`x.jsonl` for every prefix strategy and every randomness oracle. -/
theorem filename_generation_shapes (p : String) (rt rt' : Nat → Nat)
    (ut ut' : Nat → String) :
    generateFilenames "x" "count" 3 rt ut = ["x_1.jsonl", "x_2.jsonl", "x_3.jsonl"] ∧
    generateFilenames "x" p 1 rt' ut' = ["x.jsonl"] :=
  ⟨rfl, rfl⟩

/-- C10: the empty bracketed list `[]` compiles successfully under both
`int` and `str` into a choice rule with no options, and evaluating such a
rule can never produce a value — the raising branch of evaluation is
reachable from a successfully compiled plan. -/
theorem empty_choice_compiles_but_never_evaluates (e1 e2 : Entropy) :
    compileSchema [("k", "int:[]")] = ([("k", .choiceInt [])], true) ∧
    compileSchema [("k", "str:[]")] = ([("k", .choiceStr [])], true) ∧
    evalRule (.choiceInt []) e1 = none ∧
    evalRule (.choiceStr []) e2 = none ∧
    generateOneFile [("k", .choiceInt [])] (fun _ => ⟨0, 0, "u"⟩) = none := by
  refine ⟨rfl, rfl, rfl, rfl, rfl⟩

/-- The language of `LIST_PATTERN = ^\[.*\]$`, written out: an opening
bracket, a newline-free middle, a closing bracket, then at most one
trailing newline. -/
def bracketSpec (s : String) : Prop :=
  ∃ mid tail, s.data = '[' :: (mid ++ ']' :: tail) ∧
    (∀ c ∈ mid, c ≠ '\n') ∧ (tail = [] ∨ tail = ['\n'])

theorem bracket_shape (cs : List Char) :
    (2 ≤ cs.length ∧ cs.head? = some '[' ∧ cs.getLast? = some ']') ↔
      ∃ mid, cs = '[' :: (mid ++ [']']) := by
  constructor
  · rintro ⟨hlen, hhead, hlast⟩
    rcases cs with _ | ⟨c, t⟩
    · simp at hlen
    · have hc : c = '[' := by simpa using hhead
      subst hc
      have ht : t ≠ [] := by
        rintro rfl
        simp at hlen
      have hlast2 : ('[' :: t).getLast? = some (t.getLast ht) := by
        rw [List.getLast?_eq_getLast ('[' :: t) (by simp)]
        exact congrArg some (List.getLast_cons ht)
      have hval : t.getLast ht = ']' := by
        rw [hlast2] at hlast
        exact Option.some.inj hlast
      refine ⟨t.dropLast, ?_⟩
      have := List.dropLast_append_getLast ht
      rw [hval] at this
      rw [this]
  · rintro ⟨mid, rfl⟩
    refine ⟨by simp, rfl, ?_⟩
    rw [show ('[' :: (mid ++ [']'])) = ('[' :: mid) ++ [']'] from by simp]
    exact List.getLast?_concat _

/-- The compiled `LIST_PATTERN` test recognises exactly the language of the
regular expression. -/
theorem listPatternMatch_iff (s : String) :
    listPatternMatch s = true ↔ bracketSpec s := by
  constructor
  · intro h
    simp only [listPatternMatch, Bool.and_eq_true, decide_eq_true_eq] at h
    obtain ⟨⟨⟨hlen, hhead⟩, hlast⟩, hall⟩ := h
    obtain ⟨mid, hmid⟩ := (bracket_shape (listStripped s)).1 ⟨hlen, hhead, hlast⟩
    have hmidnl : ∀ c ∈ mid, c ≠ '\n' := by
      rw [hmid] at hall
      simp only [List.drop_succ_cons, List.drop_zero, List.dropLast_concat,
        List.all_eq_true, decide_eq_true_eq] at hall
      exact hall
    by_cases hnl : s.data.getLast? = some '\n'
    · have hne : s.data ≠ [] := by
        rintro hempty
        rw [hempty] at hnl
        simp at hnl
      have hlastc : s.data.getLast hne = '\n' := by
        have := List.getLast?_eq_getLast s.data hne
        rw [this] at hnl
        exact Option.some.inj hnl
      have hdecomp : s.data.dropLast ++ ['\n'] = s.data := by
        have := List.dropLast_append_getLast hne
        rw [hlastc] at this
        exact this
      have hstrip : listStripped s = s.data.dropLast := by
        simp [listStripped, hnl]
      refine ⟨mid, ['\n'], ?_, hmidnl, Or.inr rfl⟩
      rw [← hdecomp, hstrip.symm.trans hmid]
      simp
    · have hstrip : listStripped s = s.data := by
        simp [listStripped, hnl]
      refine ⟨mid, [], ?_, hmidnl, Or.inl rfl⟩
      rw [← hstrip.symm.trans hmid]
  · rintro ⟨mid, tail, hd, hmid, htail⟩
    have hconc : ('[' :: (mid ++ [']'])).getLast? = some ']' := by
      rw [show ('[' :: (mid ++ [']'])) = ('[' :: mid) ++ [']'] from by simp]
      exact List.getLast?_concat _
    have hfinish : listStripped s = '[' :: (mid ++ [']']) → listPatternMatch s = true := by
      intro hstrip
      simp [listPatternMatch, hstrip, List.dropLast_concat]
      exact ⟨hconc, hmid⟩
    rcases htail with rfl | rfl
    · refine hfinish ?_
      have hne : ('[' :: (mid ++ [']'])).getLast? ≠ some '\n' := by
        rw [hconc]
        decide
      unfold listStripped
      rw [hd, if_neg hne]
    · refine hfinish ?_
      have hassoc : ('[' :: (mid ++ [']', '\n'])) = (('[' :: mid) ++ [']']) ++ ['\n'] := by
        simp
      have hlastnl : s.data.getLast? = some '\n' := by
        rw [hd, hassoc]
        exact List.getLast?_concat _
      unfold listStripped
      rw [if_pos hlastnl, hd, hassoc, List.dropLast_concat]
      simp

/-- C7, counterexample: the source `"[1]\n"` does not end with `]`, yet the
compiler treats it as a bracketed list literal — the `int` field compiles to
the choice rule over `[1]` rather than being parsed as a standalone
integer. -/
theorem trailing_newline_source_treated_as_list :
    "[1]\n".data.getLast? ≠ some ']' ∧
    compileField "int:[1]\n" = some (.choiceInt [1]) := by
  refine ⟨by decide, rfl⟩

/-- C7 (amended): for any `int` or `str` field whose source is not empty,
not `rand`, and not a `rand(a,b)` match, the compiler takes the list branch
(of the declared type) exactly when `LIST_PATTERN` matches — falling back to
a standalone integer parse for `int` and to a verbatim static string for
`str` — and `LIST_PATTERN` accepts exactly the strings of the form `[` +
newline-free middle + `]` + at most one trailing newline (rather than
"begins with `[` and ends with `]`"). -/
theorem list_branch_iff_pattern (value valType valSource : String)
    (ht : valType = "int" ∨ valType = "str")
    (hsplit : splitOnColon value = some (valType, valSource))
    (h0 : valSource ≠ "") (h1 : valSource ≠ "rand")
    (h2 : parseRandInt valSource = none) :
    compileField value =
      (if listPatternMatch valSource then
        (if valType = "int" then compileListSourceInt valSource
         else compileListSourceStr valSource)
       else
        (if valType = "int" then compileStandaloneInt valSource
         else some (.staticStr valSource))) ∧
    (listPatternMatch valSource = true ↔ bracketSpec valSource) := by
  refine ⟨?_, listPatternMatch_iff valSource⟩
  rcases ht with rfl | rfl <;>
    · unfold compileField
      rw [hsplit]
      simp [possibleTypes, h0, h1, h2]

/-- Witness for `list_branch_iff_pattern` at the `str` list source
`['a', 'b']`. -/
theorem list_branch_iff_pattern_w :
    compileField "str:['a', 'b']" =
      (if listPatternMatch "['a', 'b']" then
        (if ("str" : String) = "int" then compileListSourceInt "['a', 'b']"
         else compileListSourceStr "['a', 'b']")
       else
        (if ("str" : String) = "int" then compileStandaloneInt "['a', 'b']"
         else some (.staticStr "['a', 'b']"))) ∧
    (listPatternMatch "['a', 'b']" = true ↔ bracketSpec "['a', 'b']") :=
  list_branch_iff_pattern "str:['a', 'b']" "str" "['a', 'b']" (Or.inr rfl)
    (by decide) (by decide) (by decide) (by decide)
